import Mathlib

/-!
Shallow embedding of `LouiEriksson::Hashmap<Tk, Tv>` (src/Hashmap.hpp) and a
verification of the specification's claims about it.

The container is a vector of buckets (`std::vector<std::vector<KeyValuePair>>
m_Buckets`) together with a live-entry counter (`size_t m_Size`).  Keys are
identified purely by their `std::hash` value (`GetHashcode`); the table never
consults a secondary equality.  We model the hash as an arbitrary total
function `h : K → Nat` (std::hash is total and deterministic); for the claims
about internal faults we additionally model a fallible hash
`hf : K → Option Nat`, where `none` stands for `std::hash` raising a
`std::exception` for that key (the only internal fault source the model
exercises; it is deterministic per key, like the exceptional conditions the
spec attributes to the stored types' copy operations).

`size_t` arithmetic: the only subtraction performed on `m_Size` is
`m_Size -= result` in `Remove`, which we render with truncated `Nat`
subtraction; the `size_t` wrap-around at 0 is unreachable whenever `m_Size`
equals the number of stored entries, which every theorem below that touches
`remove` assumes (the `WF` hypothesis).

Division by zero: `ContainsKey` and `Remove` evaluate
`hash % m_Buckets.size()` without the `!m_Buckets.empty()` guard that `Get`
and `Return` perform; in C++ `% 0` is undefined behaviour.  The total
embedding makes that branch explicit: `containsKey` and `remove` return
`none` exactly when the bucket vector is empty, i.e. exactly when the source
would divide by zero.
-/

namespace CppHashmap

/-- The state of `LouiEriksson::Hashmap<Tk, Tv>`: the bucket vector
`m_Buckets` (each bucket a vector of `KeyValuePair`, rendered `K × V`) and
the element counter `m_Size`. -/
structure HMap (K V : Type) where
  buckets : List (List (K × V))
  size : Nat
deriving DecidableEq, Repr

variable {K V : Type}

/-- A table of `n` empty buckets with `m_Size = 0`.  This is both the state
produced by the constructor `Hashmap(const size_t& _capacity)`
(`m_Buckets.resize(_capacity)` on an empty vector) and the fresh table that
`Resize` rebuilds into (`m_Buckets.clear(); m_Buckets.resize(...)` after
`m_Size = 0U`). -/
def hfresh (n : Nat) : HMap K V := ⟨List.replicate n [], 0⟩

/-- `_newSize > 0U ? _newSize : 1U` in `Hashmap::Resize`: the capacity a
resize request `n` actually rebuilds to. -/
def growTarget (n : Nat) : Nat := if 0 < n then n else 1

/-- The scan-and-replace pass of `Hashmap::Assign` over one bucket: walk the
bucket; at the first entry whose hash equals `hash`, replace its value
(`kvp.second = _value`, key unchanged) and report that a match existed.
Returns the rewritten bucket and the `exists` flag. -/
def assignBucket (h : K → Nat) (hash : Nat) (v : V) : List (K × V) → List (K × V) × Bool
  | [] => ([], false)
  | kv :: rest =>
    if h kv.1 = hash then ((kv.1, v) :: rest, true)
    else
      let p := assignBucket h hash v rest
      (kv :: p.1, p.2)

/-- The body of `Hashmap::Assign` after its resize check: compute
`i = hash % m_Buckets.size()`, scan bucket `i`; on a hash match replace the
value in place, otherwise `m_Size++` and `emplace_back(key, value)`. -/
def coreAssign (h : K → Nat) (k : K) (v : V) (s : HMap K V) : HMap K V :=
  let hash := h k
  let i := hash % s.buckets.length
  let b := (s.buckets[i]?).getD []
  let p := assignBucket h hash v b
  if p.2 then ⟨s.buckets.set i p.1, s.size⟩
  else ⟨s.buckets.set i (b ++ [(k, v)]), s.size + 1⟩

/-- The re-insertion loop of `Hashmap::Resize` restricted to `Assign` bodies
without a further resize check.  Used below for the *nested* resize that an
`Assign` issued from inside a resize loop can itself trigger; see
`insertLoop_eq_insertPlain` for the proof that whenever the nested rebuild
runs, its own load-factor trigger can never fire, so this restriction is
faithful to the (mutually recursive) source. -/
def insertPlain (h : K → Nat) : List (K × V) → HMap K V → HMap K V
  | [], s => s
  | kv :: E, s => insertPlain h E (coreAssign h kv.1 kv.2 s)

/-- The re-insertion loop of `Hashmap::Resize`: for every saved entry, call
`Assign(std::move(kvp.first), std::move(kvp.second), e_ptr)`.  Each such
`Assign` first performs its own load-factor check
`m_Size >= m_Buckets.size()` and, when it fires, a nested
`Resize(m_Buckets.size() * 2U)` — rendered with `insertPlain` because inside
a resize loop `m_Size` always equals the number of entries stored so far, so
the nested rebuild re-inserts `m_Size = capacity` entries into
`2 * capacity` fresh buckets and its own trigger cannot fire
(`insertLoop_eq_insertPlain`). -/
def insertLoop (h : K → Nat) : List (K × V) → HMap K V → HMap K V
  | [], s => s
  | kv :: E, s =>
    let s1 :=
      if s.buckets.length ≤ s.size then
        insertPlain h s.buckets.flatten (hfresh (growTarget (2 * s.buckets.length)))
      else s
    insertLoop h E (coreAssign h kv.1 kv.2 s1)

/-- `Hashmap::Resize(_newSize)` in the absence of internal faults: snapshot
the buckets, reset `m_Size` to 0, reallocate
`max(_newSize, 1)` empty buckets, and re-insert every saved entry through
the `Assign` path.  (With a total hash no re-insertion can fault, so the
rollback `catch` branch of the source is unreachable here; `resizeE` below
models the faulting case.) -/
def resize (h : K → Nat) (n : Nat) (s : HMap K V) : HMap K V :=
  insertLoop h s.buckets.flatten (hfresh (growTarget n))

/-- `Hashmap::Assign(key, value)`: if `m_Size >= m_Buckets.size()`, first
`Resize(m_Buckets.size() * 2U)`; then scan-and-replace or append
(`coreAssign`). -/
def assign (h : K → Nat) (k : K) (v : V) (s : HMap K V) : HMap K V :=
  let s1 := if s.buckets.length ≤ s.size then resize h (2 * s.buckets.length) s else s
  coreAssign h k v s1

/-- `Hashmap::Add(key, value)`: resize-if-full as in `Assign`; then scan the
addressed bucket for an entry with an equal hash — if one exists report
`false` and change nothing, otherwise `m_Size++`, append the entry, and
report `true`. -/
def add (h : K → Nat) (k : K) (v : V) (s : HMap K V) : HMap K V × Bool :=
  let s1 := if s.buckets.length ≤ s.size then resize h (2 * s.buckets.length) s else s
  let hash := h k
  let i := hash % s1.buckets.length
  let b := (s1.buckets[i]?).getD []
  if b.any (fun kv => h kv.1 == hash) then (s1, false)
  else (⟨s1.buckets.set i (b ++ [(k, v)]), s1.size + 1⟩, true)

/-- The linear scan shared by `Hashmap::Get` and `Hashmap::Return`: first
entry of the bucket whose hash equals `hash`, if any. -/
def lookupBucket (h : K → Nat) (hash : Nat) : List (K × V) → Option V
  | [] => none
  | kv :: rest => if h kv.1 = hash then some kv.2 else lookupBucket h hash rest

/-- `Hashmap::Get(key)`: guarded by `!m_Buckets.empty()` (so an empty bucket
vector yields the ordinary miss, never a division by zero), then
`hash % m_Buckets.size()` and a scan of the addressed bucket. -/
def getV (h : K → Nat) (k : K) (s : HMap K V) : Option V :=
  if s.buckets.length = 0 then none
  else lookupBucket h (h k) ((s.buckets[h k % s.buckets.length]?).getD [])

/-- `Hashmap::Return(key)` (the throwing accessor behind `operator[]`): same
guarded lookup as `Get`, but an absent result raises `std::runtime_error`,
modelled as `Except.error ()`. -/
def returnV (h : K → Nat) (k : K) (s : HMap K V) : Except Unit V :=
  match getV h k s with
  | some v => Except.ok v
  | none => Except.error ()

/-- `Hashmap::ContainsKey(key)`: computes `hash % m_Buckets.size()` with no
emptiness guard.  `none` marks the division by zero the source performs when
the bucket vector is empty (undefined behaviour in C++); otherwise `some` of
the bucket scan result. -/
def containsKey (h : K → Nat) (k : K) (s : HMap K V) : Option Bool :=
  if s.buckets.length = 0 then none
  else some (((s.buckets[h k % s.buckets.length]?).getD []).any
    (fun kv => h kv.1 == h k))

/-- The erase scan of `Hashmap::Remove` over one bucket: drop the first
entry whose hash equals `hash` (`bucket.erase(itr)`), reporting whether one
was found. -/
def removeBucket (h : K → Nat) (hash : Nat) : List (K × V) → List (K × V) × Bool
  | [] => ([], false)
  | kv :: rest =>
    if h kv.1 = hash then (rest, true)
    else
      let p := removeBucket h hash rest
      (kv :: p.1, p.2)

/-- `Hashmap::Remove(key)`: computes `hash % m_Buckets.size()` with no
emptiness guard (`none` marks the division by zero on an empty bucket
vector); otherwise erase the first hash match from the addressed bucket and
`m_Size -= result`. -/
def remove (h : K → Nat) (k : K) (s : HMap K V) : Option (HMap K V × Bool) :=
  if s.buckets.length = 0 then none
  else
    let hash := h k
    let i := hash % s.buckets.length
    let p := removeBucket h hash ((s.buckets[i]?).getD [])
    some (⟨s.buckets.set i p.1, s.size - (if p.2 then 1 else 0)⟩, p.2)

/-- The `trimStart` computation of `Hashmap::Trim`: starting from 1, scan
indices `1 .. m_Buckets.size() - 1` and remember one past the last index
holding a non-empty bucket. -/
def trimStart (bs : List (List (K × V))) : Nat :=
  (List.range' 1 (bs.length - 1)).foldl
    (fun acc i => if ((bs[i]?).getD []).length ≠ 0 then i + 1 else acc) 1

/-- `Hashmap::Trim()`: if `trimStart < m_Buckets.size()`, erase the single
bucket at index `trimStart` (`m_Buckets.erase(m_Buckets.begin() +
trimStart)` — a one-element erase, not a range erase).  `m_Size` is
untouched. -/
def trim (s : HMap K V) : HMap K V :=
  let ts := trimStart s.buckets
  if ts < s.buckets.length then ⟨s.buckets.eraseIdx ts, s.size⟩ else s

/-- `Hashmap::Reserve(_newSize)`: `if (m_Size < _newSize) Resize(_newSize)`.
Note the comparison is against `m_Size`, not the current capacity. -/
def reserve (h : K → Nat) (n : Nat) (s : HMap K V) : HMap K V :=
  if s.size < n then resize h n s else s

/-- `Hashmap::Clear()`: `m_Buckets.clear(); m_Size = 0U;` — the bucket
vector becomes empty (zero buckets). -/
def clear (_s : HMap K V) : HMap K V := ⟨[], 0⟩

/-- The constructor `Hashmap(const std::initializer_list<KeyValuePair>&
_items, const size_t& _capacity = 0U)`: if `_capacity < 1`, use
`max(_items.size(), 1)`; allocate that many empty buckets; then `Assign`
every item in order. -/
def hashmapOfList (h : K → Nat) (items : List (K × V)) (capacity : Nat) : HMap K V :=
  let c := if capacity < 1 then max items.length 1 else capacity
  items.foldl (fun s kv => assign h kv.1 kv.2 s) ⟨List.replicate c [], 0⟩

/-! ### The fallible model

The same operations over a hash `hf : K → Option Nat` that may raise
(`none`); used for the resize-rollback claim.  Faults propagate exactly as
the source's `exception_ptr` plumbing does: `Assign(..., e_ptr)` catches
internally and reports via the out-parameter, `Resize` rethrows a reported
fault out of its re-insertion loop and its `catch` restores `m_Buckets` from
the snapshot — leaving `m_Size` at the partial re-insertion count. -/

/-- Fallible `assignBucket`: hashing a stored key during the scan may itself
fault (`GetHashcode(kvp.first)` throwing), aborting the scan with no
mutation. -/
def assignBucketE (hf : K → Option Nat) (hash : Nat) (v : V) :
    List (K × V) → Option (List (K × V) × Bool)
  | [] => some ([], false)
  | kv :: rest =>
    match hf kv.1 with
    | none => none
    | some hh =>
      if hh = hash then some ((kv.1, v) :: rest, true)
      else (assignBucketE hf hash v rest).map (fun p => (kv :: p.1, p.2))

/-- Fallible body of `Assign` after its resize check.  The `Bool` is the
`e_ptr != nullptr` flag; on a fault the state is returned unchanged (every
fault in the body occurs before any mutation). -/
def coreAssignE (hf : K → Option Nat) (k : K) (v : V) (s : HMap K V) : HMap K V × Bool :=
  match hf k with
  | none => (s, true)
  | some hash =>
    let i := hash % s.buckets.length
    let b := (s.buckets[i]?).getD []
    match assignBucketE hf hash v b with
    | none => (s, true)
    | some (b2, true) => (⟨s.buckets.set i b2, s.size⟩, false)
    | some (b2, false) => (⟨s.buckets.set i (b2 ++ [(k, v)]), s.size + 1⟩, false)

/-- Fallible re-insertion loop without further resize checks (the nested
rebuild, as in `insertPlain`): stops at the first reported fault, which
`Resize` rethrows. -/
def insertPlainE (hf : K → Option Nat) : List (K × V) → HMap K V → HMap K V × Bool
  | [], s => (s, false)
  | kv :: E, s =>
    let p := coreAssignE hf kv.1 kv.2 s
    if p.2 then (p.1, true) else insertPlainE hf E p.1

/-- A nested `Hashmap::Resize` issued from inside a resize loop: rebuild
into fresh buckets; on a rethrown fault the `catch` restores `m_Buckets`
from the snapshot but leaves `m_Size` at the partial count, and the
exception is swallowed (the enclosing `Assign` then continues on the
restored buckets). -/
def resizeInnerE (hf : K → Option Nat) (n : Nat) (s : HMap K V) : HMap K V :=
  let p := insertPlainE hf s.buckets.flatten (hfresh (growTarget n))
  if p.2 then ⟨s.buckets, p.1.size⟩ else p.1

/-- `Hashmap::Assign(Tk&&, Tv&&, std::exception_ptr&)` as called from the
re-insertion loop of `Resize`: nested resize check, then the fallible
assign body. -/
def assignLoopE (hf : K → Option Nat) (k : K) (v : V) (s : HMap K V) : HMap K V × Bool :=
  let s1 := if s.buckets.length ≤ s.size then resizeInnerE hf (2 * s.buckets.length) s else s
  coreAssignE hf k v s1

/-- The re-insertion loop of a fallible `Hashmap::Resize`: `Assign` each
saved entry; as soon as one reports a fault through `e_ptr`, rethrow (stop
the loop and report the fault upward). -/
def insertLoopE (hf : K → Option Nat) : List (K × V) → HMap K V → HMap K V × Bool
  | [], s => (s, false)
  | kv :: E, s =>
    let p := assignLoopE hf kv.1 kv.2 s
    if p.2 then (p.1, true) else insertLoopE hf E p.1

/-- `Hashmap::Resize(_newSize)` with a fallible hash: on a fault rethrown
out of the re-insertion loop, the `catch (const std::exception&)` branch
executes `m_Buckets = shallow_cpy` — restoring the buckets from the
snapshot while leaving `m_Size` at the partial re-insertion count. -/
def resizeE (hf : K → Option Nat) (n : Nat) (s : HMap K V) : HMap K V :=
  let p := insertLoopE hf s.buckets.flatten (hfresh (growTarget n))
  if p.2 then ⟨s.buckets, p.1.size⟩ else p.1

/-! ### Well-formedness

The representation invariant of a table: `m_Size` equals the total number of
stored entries, every entry sits in the bucket its hash addresses, and no
bucket holds two entries with equal hashes.  Every state reachable through
the public interface under a total hash satisfies it. -/

/-- Representation invariant of `Hashmap` states.  `s.buckets.flatten.length`
is the sum of the bucket lengths (`List.length_flatten`), so the first
conjunct is the spec's `count == sum of bucket lengths`. -/
def WF (h : K → Nat) (s : HMap K V) : Prop :=
  s.size = s.buckets.flatten.length ∧
  (∀ i, i < s.buckets.length → ∀ kv ∈ (s.buckets[i]?).getD [], h kv.1 % s.buckets.length = i) ∧
  (∀ b ∈ s.buckets, b.Pairwise (fun e1 e2 => h e1.1 ≠ h e2.1))

instance (h : K → Nat) (s : HMap K V) : Decidable (WF h s) := by
  unfold WF; infer_instance

/-! ### Bucket-level lemmas -/

theorem assignBucket_snd (h : K → Nat) (hash : Nat) (v : V) :
    ∀ b : List (K × V), (assignBucket h hash v b).2 = b.any (fun kv => h kv.1 == hash)
  | [] => rfl
  | kv :: rest => by
    by_cases hh : h kv.1 = hash
    · simp [assignBucket, hh]
    · simp [assignBucket, hh, assignBucket_snd h hash v rest]

theorem assignBucket_fst_of_not_found (h : K → Nat) (hash : Nat) (v : V) :
    ∀ b : List (K × V), (assignBucket h hash v b).2 = false → (assignBucket h hash v b).1 = b
  | [] => fun _ => rfl
  | kv :: rest => by
    by_cases hh : h kv.1 = hash
    · simp [assignBucket, hh]
    · simp only [assignBucket, hh, if_false]
      intro hfail
      simp [assignBucket_fst_of_not_found h hash v rest hfail]

theorem map_fst_assignBucket (h : K → Nat) (hash : Nat) (v : V) :
    ∀ b : List (K × V), (assignBucket h hash v b).1.map Prod.fst = b.map Prod.fst
  | [] => rfl
  | kv :: rest => by
    by_cases hh : h kv.1 = hash
    · simp [assignBucket, hh]
    · simp [assignBucket, hh, map_fst_assignBucket h hash v rest]

theorem length_assignBucket (h : K → Nat) (hash : Nat) (v : V) (b : List (K × V)) :
    (assignBucket h hash v b).1.length = b.length := by
  have := congrArg List.length (map_fst_assignBucket h hash v b)
  simpa using this

theorem lookupBucket_assignBucket_found (h : K → Nat) (hash : Nat) (v : V) :
    ∀ b : List (K × V), (assignBucket h hash v b).2 = true →
      lookupBucket h hash (assignBucket h hash v b).1 = some v
  | [] => by simp [assignBucket]
  | kv :: rest => by
    by_cases hh : h kv.1 = hash
    · simp [assignBucket, hh, lookupBucket]
    · simp only [assignBucket, hh, if_false]
      intro hfound
      simp only [lookupBucket, hh, if_false]
      exact lookupBucket_assignBucket_found h hash v rest hfound

theorem lookupBucket_append_of_none (h : K → Nat) (hash : Nat) :
    ∀ b1 b2 : List (K × V), lookupBucket h hash b1 = none →
      lookupBucket h hash (b1 ++ b2) = lookupBucket h hash b2
  | [], b2 => by
    intro _
    simp
  | kv :: rest, b2 => by
    intro hnone
    by_cases hh : h kv.1 = hash
    · simp [lookupBucket, hh] at hnone
    · simp only [lookupBucket, hh, if_false, List.cons_append] at hnone ⊢
      exact lookupBucket_append_of_none h hash rest b2 hnone

theorem lookupBucket_eq_none_of_any_false (h : K → Nat) (hash : Nat) :
    ∀ b : List (K × V), b.any (fun kv => h kv.1 == hash) = false →
      lookupBucket h hash b = none
  | [] => fun _ => rfl
  | kv :: rest => by
    intro hany
    simp only [List.any_cons, Bool.or_eq_false_iff, beq_eq_false_iff_ne] at hany
    simp [lookupBucket, hany.1, lookupBucket_eq_none_of_any_false h hash rest hany.2]

theorem lookupBucket_mem_pairwise (h : K → Nat) :
    ∀ b : List (K × V), b.Pairwise (fun e1 e2 => h e1.1 ≠ h e2.1) →
      ∀ kv ∈ b, lookupBucket h (h kv.1) b = some kv.2
  | [] => by simp
  | e :: rest => by
    intro hpw kv hmem
    have hpw' := List.pairwise_cons.mp hpw
    rcases List.mem_cons.mp hmem with rfl | hmem'
    · simp [lookupBucket]
    · have hne : h e.1 ≠ h kv.1 := hpw'.1 kv hmem'
      simp only [lookupBucket, hne, if_false]
      exact lookupBucket_mem_pairwise h rest hpw'.2 kv hmem'

theorem removeBucket_snd (h : K → Nat) (hash : Nat) :
    ∀ b : List (K × V), (removeBucket h hash b).2 = b.any (fun kv => h kv.1 == hash)
  | [] => rfl
  | kv :: rest => by
    by_cases hh : h kv.1 = hash
    · simp [removeBucket, hh]
    · simp [removeBucket, hh, removeBucket_snd h hash rest]

theorem removeBucket_fst_of_not_found (h : K → Nat) (hash : Nat) :
    ∀ b : List (K × V), (removeBucket h hash b).2 = false → (removeBucket h hash b).1 = b
  | [] => fun _ => rfl
  | kv :: rest => by
    by_cases hh : h kv.1 = hash
    · simp [removeBucket, hh]
    · simp only [removeBucket, hh, if_false]
      intro hfail
      simp [removeBucket_fst_of_not_found h hash rest hfail]

theorem removeBucket_sublist (h : K → Nat) (hash : Nat) :
    ∀ b : List (K × V), (removeBucket h hash b).1.Sublist b
  | [] => List.Sublist.refl []
  | kv :: rest => by
    by_cases hh : h kv.1 = hash
    · simp [removeBucket, hh]
    · simp only [removeBucket, hh, if_false]
      exact List.Sublist.cons₂ kv (removeBucket_sublist h hash rest)

theorem length_removeBucket_found (h : K → Nat) (hash : Nat) :
    ∀ b : List (K × V), (removeBucket h hash b).2 = true →
      (removeBucket h hash b).1.length + 1 = b.length
  | [] => by simp [removeBucket]
  | kv :: rest => by
    by_cases hh : h kv.1 = hash
    · simp [removeBucket, hh]
    · simp only [removeBucket, hh, if_false]
      intro hfound
      simpa using length_removeBucket_found h hash rest hfound

theorem removeBucket_no_match (h : K → Nat) (hash : Nat) :
    ∀ b : List (K × V), b.Pairwise (fun e1 e2 => h e1.1 ≠ h e2.1) →
      (removeBucket h hash b).1.any (fun kv => h kv.1 == hash) = false
  | [] => fun _ => rfl
  | e :: rest => by
    intro hpw
    have hpw' := List.pairwise_cons.mp hpw
    by_cases hh : h e.1 = hash
    · simp only [removeBucket, hh, if_true]
      refine List.any_eq_false.mpr ?_
      intro kv hmem
      have hne : h e.1 ≠ h kv.1 := hpw'.1 kv hmem
      simp only [beq_eq_false_iff_ne, ne_eq]
      intro hkv
      exact hne (hh.trans (beq_iff_eq.mp hkv).symm)
    · simp only [removeBucket, hh, if_false, List.any_cons, Bool.or_eq_false_iff]
      refine ⟨?_, removeBucket_no_match h hash rest hpw'.2⟩
      simpa [beq_eq_false_iff_ne] using hh

/-! ### State-level basics -/

theorem growTarget_pos (n : Nat) : 0 < growTarget n := by
  unfold growTarget; split <;> omega

theorem le_growTarget_two (n : Nat) : n ≤ growTarget (2 * n) := by
  unfold growTarget; split <;> omega

theorem cap_hfresh (n : Nat) : (hfresh n : HMap K V).buckets.length = n := by
  simp [hfresh]

theorem flatten_hfresh (n : Nat) : (hfresh n : HMap K V).buckets.flatten = [] := by
  simp [hfresh, List.flatten_replicate_nil]

theorem WF_hfresh (h : K → Nat) (n : Nat) : WF h (hfresh n : HMap K V) := by
  refine ⟨by simp [flatten_hfresh, hfresh], ?_, ?_⟩
  · intro i hi kv hkv
    simp only [hfresh] at hkv hi
    rw [List.getElem?_eq_getElem (by simpa using hi)] at hkv
    simp at hkv
  · intro b hb
    simp only [hfresh] at hb
    rw [List.eq_of_mem_replicate hb]
    exact List.Pairwise.nil

theorem cap_coreAssign (h : K → Nat) (k : K) (v : V) (s : HMap K V) :
    (coreAssign h k v s).buckets.length = s.buckets.length := by
  simp only [coreAssign]
  split <;> simp

theorem cap_insertPlain (h : K → Nat) :
    ∀ (E : List (K × V)) (s : HMap K V),
      (insertPlain h E s).buckets.length = s.buckets.length
  | [], _ => rfl
  | kv :: E, s => by
    rw [insertPlain, cap_insertPlain h E, cap_coreAssign]

theorem cap_insertLoop_ge (h : K → Nat) :
    ∀ (E : List (K × V)) (s : HMap K V),
      s.buckets.length ≤ (insertLoop h E s).buckets.length
  | [], _ => le_refl _
  | kv :: E, s => by
    simp only [insertLoop]
    by_cases htrig : s.buckets.length ≤ s.size
    · simp only [htrig, if_true]
      refine le_trans (le_growTarget_two s.buckets.length) ?_
      refine le_trans ?_ (cap_insertLoop_ge h E _)
      rw [cap_coreAssign, cap_insertPlain, cap_hfresh]
    · simp only [htrig, if_false]
      refine le_trans ?_ (cap_insertLoop_ge h E _)
      rw [cap_coreAssign]

theorem cap_resize_ge (h : K → Nat) (n : Nat) (s : HMap K V) :
    growTarget n ≤ (resize h n s).buckets.length := by
  unfold resize
  refine le_trans ?_ (cap_insertLoop_ge h _ _)
  rw [cap_hfresh]

theorem cap_resize_pos (h : K → Nat) (n : Nat) (s : HMap K V) :
    0 < (resize h n s).buckets.length :=
  lt_of_lt_of_le (growTarget_pos n) (cap_resize_ge h n s)

/-- The flatten of a one-bucket update. -/
theorem flatten_set (bs : List (List (K × V))) (i : Nat) (c : List (K × V))
    (hi : i < bs.length) :
    (bs.set i c).flatten =
      (bs.take i).flatten ++ c ++ (bs.drop (i + 1)).flatten := by
  rw [List.set_eq_take_cons_drop c hi]
  simp [List.flatten_append]

theorem flatten_decomp (bs : List (List (K × V))) (i : Nat) (hi : i < bs.length) :
    bs.flatten = (bs.take i).flatten ++ bs[i] ++ (bs.drop (i + 1)).flatten := by
  have h1 : bs.flatten = (bs.take i ++ bs[i] :: bs.drop (i + 1)).flatten := by
    congr 1
    conv_lhs => rw [← List.take_append_drop i bs]
    rw [List.drop_eq_getElem_cons hi]
  rw [h1, List.flatten_append, List.flatten_cons, List.append_assoc]

theorem flatten_set_append_perm (bs : List (List (K × V))) (i : Nat) (x : K × V)
    (hi : i < bs.length) :
    (bs.set i (bs[i] ++ [x])).flatten.Perm (bs.flatten ++ [x]) := by
  rw [flatten_set bs i _ hi, flatten_decomp bs i hi]
  have p1 : (bs.take i).flatten ++ (bs[i] ++ [x]) ++ (bs.drop (i + 1)).flatten =
      ((bs.take i).flatten ++ bs[i]) ++ ([x] ++ (bs.drop (i + 1)).flatten) := by
    simp [List.append_assoc]
  have p2 : (bs.take i).flatten ++ bs[i] ++ (bs.drop (i + 1)).flatten ++ [x] =
      ((bs.take i).flatten ++ bs[i]) ++ ((bs.drop (i + 1)).flatten ++ [x]) := by
    simp [List.append_assoc]
  rw [p1, p2]
  exact List.Perm.append_left _ List.perm_append_comm

/-! ### Lookup and `coreAssign` case analysis -/

theorem getD_getElem? (bs : List (List (K × V))) (i : Nat) (hi : i < bs.length) :
    (bs[i]?).getD [] = bs[i] := by
  rw [List.getElem?_eq_getElem hi]
  rfl

/-- Every stored entry is retrievable by its key on a well-formed table. -/
theorem getV_of_mem (h : K → Nat) (s : HMap K V) (hWF : WF h s) (k : K) (v : V)
    (hmem : (k, v) ∈ s.buckets.flatten) : getV h k s = some v := by
  obtain ⟨hsize, haddr, hpw⟩ := hWF
  obtain ⟨b, hb, hkvb⟩ := List.mem_flatten.mp hmem
  obtain ⟨i, hi⟩ := List.mem_iff_getElem?.mp hb
  have hilt : i < s.buckets.length := (List.getElem?_eq_some_iff.mp hi).1
  have hcap : 0 < s.buckets.length := lt_of_le_of_lt (Nat.zero_le i) hilt
  have hgetD : (s.buckets[i]?).getD [] = b := by rw [hi]; rfl
  have haddri : h k % s.buckets.length = i :=
    haddr i hilt (k, v) (by rw [hgetD]; exact hkvb)
  unfold getV
  rw [if_neg (by omega), haddri, hgetD]
  exact lookupBucket_mem_pairwise h b (hpw b hb) (k, v) hkvb

/-- On a well-formed table the bucket scan at the addressed index finds a
hash match exactly when some stored entry has that hash. -/
theorem anyMatch_iff (h : K → Nat) (s : HMap K V) (hWF : WF h s) (k : K)
    (hcap : 0 < s.buckets.length) :
    (((s.buckets[h k % s.buckets.length]?).getD []).any (fun kv => h kv.1 == h k)) = true ↔
      ∃ e ∈ s.buckets.flatten, h e.1 = h k := by
  have hlt : h k % s.buckets.length < s.buckets.length := Nat.mod_lt _ hcap
  constructor
  · intro hany
    obtain ⟨e, he, heq⟩ := List.any_eq_true.mp hany
    refine ⟨e, ?_, beq_iff_eq.mp heq⟩
    refine List.mem_flatten.mpr ⟨(s.buckets[h k % s.buckets.length]?).getD [], ?_, he⟩
    rw [getD_getElem? _ _ hlt]
    exact List.getElem_mem hlt
  · rintro ⟨e, he, heq⟩
    obtain ⟨b, hb, heb⟩ := List.mem_flatten.mp he
    obtain ⟨i, hi⟩ := List.mem_iff_getElem?.mp hb
    have hilt : i < s.buckets.length := (List.getElem?_eq_some_iff.mp hi).1
    have hgetD : (s.buckets[i]?).getD [] = b := by rw [hi]; rfl
    have haddri : h e.1 % s.buckets.length = i :=
      hWF.2.1 i hilt e (by rw [hgetD]; exact heb)
    rw [← heq, haddri, hgetD]
    exact List.any_eq_true.mpr ⟨e, heb, beq_iff_eq.mpr rfl⟩

theorem coreAssign_size_found (h : K → Nat) (k : K) (v : V) (s : HMap K V)
    (hany : ((s.buckets[h k % s.buckets.length]?).getD []).any
      (fun kv => h kv.1 == h k) = true) :
    (coreAssign h k v s).size = s.size := by
  simp [coreAssign, assignBucket_snd, hany]

theorem coreAssign_buckets_found (h : K → Nat) (k : K) (v : V) (s : HMap K V)
    (hany : ((s.buckets[h k % s.buckets.length]?).getD []).any
      (fun kv => h kv.1 == h k) = true) :
    (coreAssign h k v s).buckets = s.buckets.set (h k % s.buckets.length)
      (assignBucket h (h k) v ((s.buckets[h k % s.buckets.length]?).getD [])).1 := by
  simp [coreAssign, assignBucket_snd, hany]

theorem coreAssign_size_not_found (h : K → Nat) (k : K) (v : V) (s : HMap K V)
    (hany : ((s.buckets[h k % s.buckets.length]?).getD []).any
      (fun kv => h kv.1 == h k) = false) :
    (coreAssign h k v s).size = s.size + 1 := by
  simp [coreAssign, assignBucket_snd, hany]

theorem coreAssign_buckets_not_found (h : K → Nat) (k : K) (v : V) (s : HMap K V)
    (hany : ((s.buckets[h k % s.buckets.length]?).getD []).any
      (fun kv => h kv.1 == h k) = false) :
    (coreAssign h k v s).buckets = s.buckets.set (h k % s.buckets.length)
      (((s.buckets[h k % s.buckets.length]?).getD []) ++ [(k, v)]) := by
  simp [coreAssign, assignBucket_snd, hany]

/-- `Assign`'s body always leaves the assigned value retrievable. -/
theorem getV_coreAssign_self (h : K → Nat) (k : K) (v : V) (s : HMap K V)
    (hcap : 0 < s.buckets.length) :
    getV h k (coreAssign h k v s) = some v := by
  have hlt : h k % s.buckets.length < s.buckets.length := Nat.mod_lt _ hcap
  have hcap' : (coreAssign h k v s).buckets.length = s.buckets.length :=
    cap_coreAssign h k v s
  by_cases hany : ((s.buckets[h k % s.buckets.length]?).getD []).any
      (fun kv => h kv.1 == h k) = true
  · unfold getV
    rw [if_neg (by omega), coreAssign_buckets_found h k v s hany]
    rw [List.length_set, List.getElem?_set_self (by omega)]
    exact lookupBucket_assignBucket_found h (h k) v _
      (by rw [assignBucket_snd]; exact hany)
  · rw [Bool.not_eq_true] at hany
    unfold getV
    rw [if_neg (by omega), coreAssign_buckets_not_found h k v s hany]
    rw [List.length_set, List.getElem?_set_self (by omega)]
    show lookupBucket h (h k) (_ ++ [(k, v)]) = some v
    rw [lookupBucket_append_of_none h (h k) _ _
      (lookupBucket_eq_none_of_any_false h (h k) _ hany)]
    simp [lookupBucket]

theorem flatten_coreAssign_not_found (h : K → Nat) (k : K) (v : V) (s : HMap K V)
    (hcap : 0 < s.buckets.length)
    (hany : ((s.buckets[h k % s.buckets.length]?).getD []).any
      (fun kv => h kv.1 == h k) = false) :
    (coreAssign h k v s).buckets.flatten.Perm (s.buckets.flatten ++ [(k, v)]) := by
  have hlt : h k % s.buckets.length < s.buckets.length := Nat.mod_lt _ hcap
  rw [coreAssign_buckets_not_found h k v s hany, getD_getElem? _ _ hlt]
  exact flatten_set_append_perm s.buckets _ (k, v) hlt

theorem map_fst_flatten_coreAssign_found (h : K → Nat) (k : K) (v : V) (s : HMap K V)
    (hcap : 0 < s.buckets.length)
    (hany : ((s.buckets[h k % s.buckets.length]?).getD []).any
      (fun kv => h kv.1 == h k) = true) :
    (coreAssign h k v s).buckets.flatten.map Prod.fst =
      s.buckets.flatten.map Prod.fst := by
  have hlt : h k % s.buckets.length < s.buckets.length := Nat.mod_lt _ hcap
  rw [coreAssign_buckets_found h k v s hany,
    flatten_set s.buckets _ _ hlt, flatten_decomp s.buckets _ hlt]
  simp only [List.map_append]
  rw [getD_getElem? _ _ hlt, map_fst_assignBucket]

/-! ### Preservation of the representation invariant -/

theorem coreAssign_eq_found (h : K → Nat) (k : K) (v : V) (s : HMap K V)
    (hany : ((s.buckets[h k % s.buckets.length]?).getD []).any
      (fun kv => h kv.1 == h k) = true) :
    coreAssign h k v s =
      ⟨s.buckets.set (h k % s.buckets.length)
        (assignBucket h (h k) v ((s.buckets[h k % s.buckets.length]?).getD [])).1,
       s.size⟩ := by
  simp [coreAssign, assignBucket_snd, hany]

theorem coreAssign_eq_not_found (h : K → Nat) (k : K) (v : V) (s : HMap K V)
    (hany : ((s.buckets[h k % s.buckets.length]?).getD []).any
      (fun kv => h kv.1 == h k) = false) :
    coreAssign h k v s =
      ⟨s.buckets.set (h k % s.buckets.length)
        (((s.buckets[h k % s.buckets.length]?).getD []) ++ [(k, v)]),
       s.size + 1⟩ := by
  simp [coreAssign, assignBucket_snd, hany]

theorem flatten_length_set_eq (bs : List (List (K × V))) (i : Nat)
    (c : List (K × V)) (hi : i < bs.length) (hc : c.length = bs[i].length) :
    (bs.set i c).flatten.length = bs.flatten.length := by
  rw [flatten_set bs i c hi, flatten_decomp bs i hi]
  simp [hc]

theorem flatten_length_set_append (bs : List (List (K × V))) (i : Nat)
    (x : K × V) (hi : i < bs.length) :
    (bs.set i (bs[i] ++ [x])).flatten.length = bs.flatten.length + 1 :=
  ((flatten_set_append_perm bs i x hi).length_eq).trans (by simp)

/-- A one-bucket update preserves well-formedness when the new bucket is
correctly addressed, hash-pairwise distinct, and the size is adjusted to the
new total. -/
theorem WF_mk_set (h : K → Nat) (s : HMap K V) (hWF : WF h s) (i : Nat)
    (hi : i < s.buckets.length) (c : List (K × V)) (sz : Nat)
    (hlen : sz = (s.buckets.set i c).flatten.length)
    (haddr_c : ∀ kv ∈ c, h kv.1 % s.buckets.length = i)
    (hpw_c : c.Pairwise (fun e1 e2 => h e1.1 ≠ h e2.1)) :
    WF h (⟨s.buckets.set i c, sz⟩ : HMap K V) := by
  obtain ⟨hsize, haddr, hpw⟩ := hWF
  refine ⟨hlen, ?_, ?_⟩
  · intro j hj kv hkv
    simp only [List.length_set] at hj ⊢
    by_cases hij : i = j
    · subst hij
      rw [List.getElem?_set_self (by omega)] at hkv
      exact haddr_c kv hkv
    · rw [List.getElem?_set_ne hij] at hkv
      exact haddr j hj kv hkv
  · intro b hb
    rcases List.mem_or_eq_of_mem_set hb with hmem | rfl
    · exact hpw b hmem
    · exact hpw_c

theorem WF_coreAssign (h : K → Nat) (k : K) (v : V) (s : HMap K V)
    (hWF : WF h s) (hcap : 0 < s.buckets.length) :
    WF h (coreAssign h k v s) := by
  have hlt : h k % s.buckets.length < s.buckets.length := Nat.mod_lt _ hcap
  by_cases hany : ((s.buckets[h k % s.buckets.length]?).getD []).any
      (fun kv => h kv.1 == h k) = true
  · rw [coreAssign_eq_found h k v s hany]
    refine WF_mk_set h s hWF _ hlt _ _ ?_ ?_ ?_
    · rw [flatten_length_set_eq s.buckets _ _ hlt
        (by rw [length_assignBucket, getD_getElem? _ _ hlt])]
      exact hWF.1
    · intro kv hkv
      have hmem : kv.1 ∈ (assignBucket h (h k) v
          ((s.buckets[h k % s.buckets.length]?).getD [])).1.map Prod.fst :=
        List.mem_map_of_mem Prod.fst hkv
      rw [map_fst_assignBucket] at hmem
      obtain ⟨kv2, hkv2, hfst⟩ := List.mem_map.mp hmem
      have := hWF.2.1 _ hlt kv2 hkv2
      rw [← hfst]
      exact this
    · have hpwb := hWF.2.2 ((s.buckets[h k % s.buckets.length]?).getD [])
        (by rw [getD_getElem? _ _ hlt]; exact List.getElem_mem hlt)
      have hpwmap : ((s.buckets[h k % s.buckets.length]?).getD []).map Prod.fst
          |>.Pairwise (fun a b => h a ≠ h b) := List.pairwise_map.mpr hpwb
      have : (assignBucket h (h k) v
          ((s.buckets[h k % s.buckets.length]?).getD [])).1.map Prod.fst
          |>.Pairwise (fun a b => h a ≠ h b) := by
        rw [map_fst_assignBucket]; exact hpwmap
      exact (@List.pairwise_map (K × V) K Prod.fst (fun a b => h a ≠ h b) _).mp this
  · rw [Bool.not_eq_true] at hany
    rw [coreAssign_eq_not_found h k v s hany]
    refine WF_mk_set h s hWF _ hlt _ _ ?_ ?_ ?_
    · rw [getD_getElem? _ _ hlt, flatten_length_set_append s.buckets _ _ hlt, hWF.1]
    · intro kv hkv
      rcases List.mem_append.mp hkv with hold | hnew
      · exact hWF.2.1 _ hlt kv hold
      · rw [List.mem_singleton.mp hnew]
    · refine List.pairwise_append.mpr ⟨?_, ?_, ?_⟩
      · exact hWF.2.2 _ (by rw [getD_getElem? _ _ hlt]; exact List.getElem_mem hlt)
      · simp
      · intro e he x hx
        rw [List.mem_singleton.mp hx]
        have := List.any_eq_false.mp hany e he
        simpa [beq_iff_eq] using this

/-- On a well-formed table the hashes of all stored entries are pairwise
distinct (within a bucket by the bucket invariant; across buckets because
the addressed indices differ). -/
theorem WF_flatten_pairwise (h : K → Nat) (s : HMap K V) (hWF : WF h s) :
    s.buckets.flatten.Pairwise (fun e1 e2 => h e1.1 ≠ h e2.1) := by
  refine List.pairwise_flatten.mpr ⟨hWF.2.2, ?_⟩
  refine List.pairwise_iff_getElem.mpr ?_
  intro i j hi hj hij x hx y hy
  have haddrx : h x.1 % s.buckets.length = i :=
    hWF.2.1 i hi x (by rw [getD_getElem? _ _ hi]; exact hx)
  have haddry : h y.1 % s.buckets.length = j :=
    hWF.2.1 j hj y (by rw [getD_getElem? _ _ hj]; exact hy)
  intro heq
  rw [heq] at haddrx
  omega

/-! ### The re-insertion loop invariants -/

theorem coreAssign_size_le (h : K → Nat) (k : K) (v : V) (s : HMap K V) :
    (coreAssign h k v s).size ≤ s.size + 1 := by
  by_cases hany : ((s.buckets[h k % s.buckets.length]?).getD []).any
      (fun kv => h kv.1 == h k) = true
  · rw [coreAssign_size_found h k v s hany]; omega
  · rw [Bool.not_eq_true] at hany
    rw [coreAssign_size_not_found h k v s hany]

/-- Faithfulness of rendering the nested resize with `insertPlain`: a
re-insertion loop entered with enough headroom (`m_Size` plus the number of
pending entries at most the capacity) never fires the load-factor trigger,
so the full `Assign` loop and the check-free loop coincide. -/
theorem insertLoop_eq_insertPlain (h : K → Nat) :
    ∀ (E : List (K × V)) (s : HMap K V),
      s.size + E.length ≤ s.buckets.length → insertLoop h E s = insertPlain h E s
  | [], _ => fun _ => rfl
  | kv :: E, s => fun hle => by
    rw [List.length_cons] at hle
    have htrig : ¬ s.buckets.length ≤ s.size := by omega
    simp only [insertLoop, insertPlain, htrig, if_false]
    refine insertLoop_eq_insertPlain h E _ ?_
    rw [cap_coreAssign]
    have := coreAssign_size_le h kv.1 kv.2 s
    omega

theorem lt_growTarget_two (n : Nat) (hn : 0 < n) : n < growTarget (2 * n) := by
  unfold growTarget; split <;> omega

/-- Invariant of the check-free re-insertion loop: starting from a
well-formed table whose entries are (as a multiset) `acc`, inserting a
pairwise-hash-distinct tail `E` disjoint from `acc` yields a well-formed
table with entries `acc ++ E` and unchanged capacity. -/
theorem insertPlain_spec (h : K → Nat) :
    ∀ (E acc : List (K × V)) (t : HMap K V),
      WF h t → 0 < t.buckets.length → t.buckets.flatten.Perm acc →
      (acc ++ E).Pairwise (fun e1 e2 => h e1.1 ≠ h e2.1) →
      WF h (insertPlain h E t) ∧
      (insertPlain h E t).buckets.length = t.buckets.length ∧
      (insertPlain h E t).buckets.flatten.Perm (acc ++ E)
  | [], acc, t => fun hWF _ hperm _ => ⟨hWF, rfl, by simpa using hperm⟩
  | kv :: E, acc, t => fun hWF hcap hperm hdis => by
    have hnot : ¬ ∃ e ∈ t.buckets.flatten, h e.1 = h kv.1 := by
      rintro ⟨e, he, heq⟩
      exact (List.pairwise_append.mp hdis).2.2 e (hperm.mem_iff.mp he) kv
        (List.mem_cons_self _ _) heq
    have hany : ((t.buckets[h kv.1 % t.buckets.length]?).getD []).any
        (fun e => h e.1 == h kv.1) = false := by
      rw [← Bool.not_eq_true]
      intro htrue
      exact hnot ((anyMatch_iff h t hWF kv.1 hcap).mp htrue)
    have hWF2 := WF_coreAssign h kv.1 kv.2 t hWF hcap
    have hcap2 := cap_coreAssign h kv.1 kv.2 t
    have hperm2 : (coreAssign h kv.1 kv.2 t).buckets.flatten.Perm (acc ++ [kv]) :=
      (flatten_coreAssign_not_found h kv.1 kv.2 t hcap hany).trans
        (hperm.append_right [kv])
    have hdis2 : ((acc ++ [kv]) ++ E).Pairwise (fun e1 e2 => h e1.1 ≠ h e2.1) := by
      rw [List.append_assoc, List.singleton_append]
      exact hdis
    have IH := insertPlain_spec h E (acc ++ [kv]) (coreAssign h kv.1 kv.2 t) hWF2
      (by rw [hcap2]; exact hcap) hperm2 hdis2
    rw [insertPlain]
    refine ⟨IH.1, by rw [IH.2.1, hcap2], ?_⟩
    have hres := IH.2.2
    rwa [List.append_assoc, List.singleton_append] at hres

/-- Invariant of the full re-insertion loop of `Resize` (with the nested
load-factor rebuilds): entries end up being `acc ++ E` as a multiset, the
capacity never shrinks, and the resulting size is bounded by the resulting
capacity. -/
theorem insertLoop_spec (h : K → Nat) :
    ∀ (E acc : List (K × V)) (t : HMap K V),
      WF h t → 0 < t.buckets.length → t.size ≤ t.buckets.length →
      t.buckets.flatten.Perm acc →
      (acc ++ E).Pairwise (fun e1 e2 => h e1.1 ≠ h e2.1) →
      WF h (insertLoop h E t) ∧
      t.buckets.length ≤ (insertLoop h E t).buckets.length ∧
      (insertLoop h E t).buckets.flatten.Perm (acc ++ E) ∧
      (insertLoop h E t).size ≤ (insertLoop h E t).buckets.length
  | [], acc, t => fun hWF _ hsz hperm _ => ⟨hWF, le_refl _, by simpa using hperm, hsz⟩
  | kv :: E, acc, t => fun hWF hcap hsz hperm hdis => by
    have key : ∀ t2 : HMap K V, WF h t2 → t.buckets.length ≤ t2.buckets.length →
        t2.size < t2.buckets.length → t2.buckets.flatten.Perm acc →
        WF h (insertLoop h E (coreAssign h kv.1 kv.2 t2)) ∧
        t.buckets.length ≤ (insertLoop h E (coreAssign h kv.1 kv.2 t2)).buckets.length ∧
        (insertLoop h E (coreAssign h kv.1 kv.2 t2)).buckets.flatten.Perm (acc ++ kv :: E) ∧
        (insertLoop h E (coreAssign h kv.1 kv.2 t2)).size ≤
          (insertLoop h E (coreAssign h kv.1 kv.2 t2)).buckets.length := by
      intro t2 hWF2 hcaple hszlt hperm2
      have hcap2 : 0 < t2.buckets.length := lt_of_le_of_lt (Nat.zero_le _) hszlt
      have hnot : ¬ ∃ e ∈ t2.buckets.flatten, h e.1 = h kv.1 := by
        rintro ⟨e, he, heq⟩
        exact (List.pairwise_append.mp hdis).2.2 e (hperm2.mem_iff.mp he) kv
          (List.mem_cons_self _ _) heq
      have hany : ((t2.buckets[h kv.1 % t2.buckets.length]?).getD []).any
          (fun e => h e.1 == h kv.1) = false := by
        rw [← Bool.not_eq_true]
        intro htrue
        exact hnot ((anyMatch_iff h t2 hWF2 kv.1 hcap2).mp htrue)
      have hWF3 := WF_coreAssign h kv.1 kv.2 t2 hWF2 hcap2
      have hcap3 := cap_coreAssign h kv.1 kv.2 t2
      have hsz3 : (coreAssign h kv.1 kv.2 t2).size ≤
          (coreAssign h kv.1 kv.2 t2).buckets.length := by
        rw [coreAssign_size_not_found h kv.1 kv.2 t2 hany, hcap3]
        omega
      have hperm3 : (coreAssign h kv.1 kv.2 t2).buckets.flatten.Perm (acc ++ [kv]) :=
        (flatten_coreAssign_not_found h kv.1 kv.2 t2 hcap2 hany).trans
          (hperm2.append_right [kv])
      have hdis3 : ((acc ++ [kv]) ++ E).Pairwise (fun e1 e2 => h e1.1 ≠ h e2.1) := by
        rw [List.append_assoc, List.singleton_append]
        exact hdis
      have IH := insertLoop_spec h E (acc ++ [kv]) (coreAssign h kv.1 kv.2 t2) hWF3
        (by rw [hcap3]; exact hcap2) hsz3 hperm3 hdis3
      refine ⟨IH.1, ?_, ?_, IH.2.2.2⟩
      · exact le_trans hcaple (le_trans (le_of_eq hcap3.symm) IH.2.1)
      · have hres := IH.2.2.1
        rwa [List.append_assoc, List.singleton_append] at hres
    simp only [insertLoop]
    by_cases htrig : t.buckets.length ≤ t.size
    · rw [if_pos htrig]
      have heq : t.size = t.buckets.length := le_antisymm hsz htrig
      have hfdis : t.buckets.flatten.Pairwise (fun e1 e2 => h e1.1 ≠ h e2.1) :=
        (List.Perm.pairwise_iff (fun hxy => Ne.symm hxy) hperm).mpr
          (List.pairwise_append.mp hdis).1
      have RB := insertPlain_spec h t.buckets.flatten []
        (hfresh (growTarget (2 * t.buckets.length))) (WF_hfresh h _)
        (by rw [cap_hfresh]; exact growTarget_pos _)
        (by rw [flatten_hfresh]) (by simpa using hfdis)
      have hcap1 : (insertPlain h t.buckets.flatten
          (hfresh (growTarget (2 * t.buckets.length)))).buckets.length =
          growTarget (2 * t.buckets.length) := by
        rw [RB.2.1, cap_hfresh]
      have hperm1 : (insertPlain h t.buckets.flatten
          (hfresh (growTarget (2 * t.buckets.length)))).buckets.flatten.Perm acc :=
        List.Perm.trans (by simpa using RB.2.2) hperm
      have hszlt1 : (insertPlain h t.buckets.flatten
          (hfresh (growTarget (2 * t.buckets.length)))).size <
          (insertPlain h t.buckets.flatten
          (hfresh (growTarget (2 * t.buckets.length)))).buckets.length := by
        rw [RB.1.1, hperm1.length_eq, ← hperm.length_eq, ← hWF.1, heq, hcap1]
        exact lt_growTarget_two _ hcap
      exact key _ RB.1 (by rw [hcap1]; exact le_growTarget_two _) hszlt1 hperm1
    · rw [if_neg htrig]
      exact key t hWF (le_refl _) (by omega) hperm

/-- `Resize` on a well-formed table: the result is well-formed, holds
exactly the same entries (as a multiset), keeps `m_Size` identical, and its
size is bounded by its capacity. -/
theorem resize_spec (h : K → Nat) (n : Nat) (s : HMap K V) (hWF : WF h s) :
    WF h (resize h n s) ∧
    (resize h n s).buckets.flatten.Perm s.buckets.flatten ∧
    (resize h n s).size = s.size ∧
    (resize h n s).size ≤ (resize h n s).buckets.length := by
  have hdis := WF_flatten_pairwise h s hWF
  have SP := insertLoop_spec h s.buckets.flatten [] (hfresh (growTarget n))
    (WF_hfresh h _) (by rw [cap_hfresh]; exact growTarget_pos n)
    (by simp [hfresh]) (by rw [flatten_hfresh]) (by simpa using hdis)
  have hperm : (resize h n s).buckets.flatten.Perm s.buckets.flatten := by
    unfold resize
    simpa using SP.2.2.1
  refine ⟨SP.1, hperm, ?_, SP.2.2.2⟩
  show (insertLoop h s.buckets.flatten (hfresh (growTarget n))).size = s.size
  rw [SP.1.1, (SP.2.2.1).length_eq, List.nil_append]
  exact hWF.1.symm

/-! ### `Add` / `Assign` / `Remove` at the interface level -/

/-- The pre-step shared by `Add` and `Assign`:
`if (m_Size >= m_Buckets.size()) { Resize(m_Buckets.size() * 2U); }`. -/
def growIfFull (h : K → Nat) (s : HMap K V) : HMap K V :=
  if s.buckets.length ≤ s.size then resize h (2 * s.buckets.length) s else s

theorem assign_eq (h : K → Nat) (k : K) (v : V) (s : HMap K V) :
    assign h k v s = coreAssign h k v (growIfFull h s) := rfl

theorem add_eq (h : K → Nat) (k : K) (v : V) (s : HMap K V) :
    add h k v s =
      (if (((growIfFull h s).buckets[h k % (growIfFull h s).buckets.length]?).getD []).any
          (fun kv => h kv.1 == h k) then (growIfFull h s, false)
       else (⟨(growIfFull h s).buckets.set (h k % (growIfFull h s).buckets.length)
              ((((growIfFull h s).buckets[h k %
                (growIfFull h s).buckets.length]?).getD []) ++ [(k, v)]),
              (growIfFull h s).size + 1⟩, true)) := rfl

theorem growIfFull_spec (h : K → Nat) (s : HMap K V) (hWF : WF h s) :
    WF h (growIfFull h s) ∧
    0 < (growIfFull h s).buckets.length ∧
    (growIfFull h s).buckets.flatten.Perm s.buckets.flatten ∧
    (growIfFull h s).size = s.size ∧
    s.buckets.length ≤ (growIfFull h s).buckets.length := by
  unfold growIfFull
  by_cases htrig : s.buckets.length ≤ s.size
  · simp only [htrig, if_true]
    have R := resize_spec h (2 * s.buckets.length) s hWF
    refine ⟨R.1, cap_resize_pos h _ s, R.2.1, R.2.2.1, ?_⟩
    exact le_trans (le_growTarget_two _) (cap_resize_ge h _ s)
  · simp only [htrig, if_false]
    exact ⟨hWF, by omega, List.Perm.refl _, by trivial, le_refl _⟩

theorem getV_assign_self (h : K → Nat) (k : K) (v : V) (s : HMap K V)
    (hWF : WF h s) : getV h k (assign h k v s) = some v := by
  rw [assign_eq]
  exact getV_coreAssign_self h k v _ (growIfFull_spec h s hWF).2.1

theorem WF_assign (h : K → Nat) (k : K) (v : V) (s : HMap K V)
    (hWF : WF h s) : WF h (assign h k v s) := by
  rw [assign_eq]
  exact WF_coreAssign h k v _ (growIfFull_spec h s hWF).1 (growIfFull_spec h s hWF).2.1

theorem anyMatch_growIfFull (h : K → Nat) (k : K) (s : HMap K V) (hWF : WF h s) :
    ((((growIfFull h s).buckets[h k % (growIfFull h s).buckets.length]?).getD []).any
      (fun kv => h kv.1 == h k) = true) ↔ ∃ e ∈ s.buckets.flatten, h e.1 = h k := by
  have P := growIfFull_spec h s hWF
  rw [anyMatch_iff h _ P.1 k P.2.1]
  constructor
  · rintro ⟨e, he, heq⟩
    exact ⟨e, P.2.2.1.mem_iff.mp he, heq⟩
  · rintro ⟨e, he, heq⟩
    exact ⟨e, P.2.2.1.mem_iff.mpr he, heq⟩

theorem assign_size_present (h : K → Nat) (k : K) (v : V) (s : HMap K V)
    (hWF : WF h s) (hpres : ∃ e ∈ s.buckets.flatten, h e.1 = h k) :
    (assign h k v s).size = s.size := by
  rw [assign_eq, coreAssign_size_found h k v _
    ((anyMatch_growIfFull h k s hWF).mpr hpres)]
  exact (growIfFull_spec h s hWF).2.2.2.1

theorem assign_size_absent (h : K → Nat) (k : K) (v : V) (s : HMap K V)
    (hWF : WF h s) (habs : ¬ ∃ e ∈ s.buckets.flatten, h e.1 = h k) :
    (assign h k v s).size = s.size + 1 := by
  have hany : (((growIfFull h s).buckets[h k %
      (growIfFull h s).buckets.length]?).getD []).any
      (fun kv => h kv.1 == h k) = false := by
    rw [← Bool.not_eq_true]
    intro htrue
    exact habs ((anyMatch_growIfFull h k s hWF).mp htrue)
  rw [assign_eq, coreAssign_size_not_found h k v _ hany,
    (growIfFull_spec h s hWF).2.2.2.1]

theorem assign_keys_present (h : K → Nat) (k : K) (v : V) (s : HMap K V)
    (hWF : WF h s) (hpres : ∃ e ∈ s.buckets.flatten, h e.1 = h k) :
    ((assign h k v s).buckets.flatten.map Prod.fst).Perm
      (s.buckets.flatten.map Prod.fst) := by
  have P := growIfFull_spec h s hWF
  rw [assign_eq, map_fst_flatten_coreAssign_found h k v _ P.2.1
    ((anyMatch_growIfFull h k s hWF).mpr hpres)]
  exact P.2.2.1.map Prod.fst

theorem lookupBucket_some_mem (h : K → Nat) (hash : Nat) (v : V) :
    ∀ b : List (K × V), lookupBucket h hash b = some v → ∃ e ∈ b, h e.1 = hash
  | [] => by simp [lookupBucket]
  | kv :: rest => by
    intro hlk
    by_cases hh : h kv.1 = hash
    · exact ⟨kv, List.mem_cons_self _ _, hh⟩
    · rw [lookupBucket, if_neg hh] at hlk
      obtain ⟨e, he, heq⟩ := lookupBucket_some_mem h hash v rest hlk
      exact ⟨e, List.mem_cons_of_mem _ he, heq⟩

theorem getV_some_present (h : K → Nat) (k : K) (s : HMap K V) (v : V)
    (hget : getV h k s = some v) : ∃ e ∈ s.buckets.flatten, h e.1 = h k := by
  unfold getV at hget
  by_cases hz : s.buckets.length = 0
  · rw [if_pos hz] at hget
    exact absurd hget (by simp)
  · rw [if_neg hz] at hget
    obtain ⟨e, he, heq⟩ := lookupBucket_some_mem h (h k) v _ hget
    have hlt : h k % s.buckets.length < s.buckets.length := Nat.mod_lt _ (by omega)
    refine ⟨e, List.mem_flatten.mpr ⟨_, ?_, he⟩, heq⟩
    rw [getD_getElem? _ _ hlt]
    exact List.getElem_mem hlt

theorem add_present (h : K → Nat) (k : K) (v : V) (s : HMap K V)
    (hWF : WF h s) (hpres : ∃ e ∈ s.buckets.flatten, h e.1 = h k) :
    add h k v s = (growIfFull h s, false) := by
  rw [add_eq, if_pos ((anyMatch_growIfFull h k s hWF).mpr hpres)]

theorem add_absent (h : K → Nat) (k : K) (v : V) (s : HMap K V)
    (hWF : WF h s) (habs : ¬ ∃ e ∈ s.buckets.flatten, h e.1 = h k) :
    (add h k v s).2 = true ∧
    (add h k v s).1 = assign h k v s := by
  have hany : (((growIfFull h s).buckets[h k %
      (growIfFull h s).buckets.length]?).getD []).any
      (fun kv => h kv.1 == h k) = false := by
    rw [← Bool.not_eq_true]
    intro htrue
    exact habs ((anyMatch_growIfFull h k s hWF).mp htrue)
  refine ⟨?_, ?_⟩
  · rw [add_eq, if_neg (by rw [hany]; simp)]
  · rw [add_eq, if_neg (by rw [hany]; simp), assign_eq,
      coreAssign_eq_not_found h k v _ hany]

theorem containsKey_eq_pos (h : K → Nat) (k : K) (s : HMap K V)
    (hcap : 0 < s.buckets.length) :
    containsKey h k s =
      some (((s.buckets[h k % s.buckets.length]?).getD []).any
        (fun kv => h kv.1 == h k)) := by
  unfold containsKey
  rw [if_neg (by omega)]

theorem remove_eq_pos (h : K → Nat) (k : K) (s : HMap K V)
    (hcap : 0 < s.buckets.length) :
    remove h k s = some
      (⟨s.buckets.set (h k % s.buckets.length)
          (removeBucket h (h k) ((s.buckets[h k % s.buckets.length]?).getD [])).1,
        s.size - (if (removeBucket h (h k)
          ((s.buckets[h k % s.buckets.length]?).getD [])).2 then 1 else 0)⟩,
       (removeBucket h (h k) ((s.buckets[h k % s.buckets.length]?).getD [])).2) := by
  unfold remove
  rw [if_neg (by omega)]

theorem set_getElem?_self {α : Type} (bs : List α) (i : Nat) (b : α)
    (hb : bs[i]? = some b) : bs.set i b = bs := by
  refine List.ext_getElem? fun j => ?_
  by_cases hij : i = j
  · subst hij
    rw [List.getElem?_set_self (List.getElem?_eq_some_iff.mp hb).1]
    exact hb.symm
  · rw [List.getElem?_set_ne hij]

/-! ### `Trim` analysis -/

theorem trimStart_aux (bs : List (List (K × V))) :
    ∀ m : Nat,
      1 ≤ (List.range' 1 m).foldl
        (fun acc i => if ((bs[i]?).getD []).length ≠ 0 then i + 1 else acc) 1 ∧
      (List.range' 1 m).foldl
        (fun acc i => if ((bs[i]?).getD []).length ≠ 0 then i + 1 else acc) 1 ≤ m + 1 ∧
      (∀ j, 1 ≤ j → j < 1 + m → ((bs[j]?).getD []).length ≠ 0 →
        j < (List.range' 1 m).foldl
          (fun acc i => if ((bs[i]?).getD []).length ≠ 0 then i + 1 else acc) 1)
  | 0 => by
    simp only [List.range'_zero, List.foldl_nil]
    exact ⟨le_refl 1, by omega, fun j h1 h2 _ => by omega⟩
  | m + 1 => by
    have IH := trimStart_aux bs m
    rw [List.range'_concat, List.foldl_append]
    simp only [one_mul, List.foldl_cons, List.foldl_nil]
    by_cases hne : ((bs[1 + m]?).getD []).length ≠ 0
    · rw [if_pos hne]
      exact ⟨by omega, by omega, fun j h1 h2 _ => by omega⟩
    · rw [if_neg hne]
      refine ⟨IH.1, by have := IH.2.1; omega, ?_⟩
      intro j h1 h2 h3
      by_cases hj : j < 1 + m
      · exact IH.2.2 j h1 hj h3
      · have hjeq : j = 1 + m := by omega
        rw [hjeq] at h3
        exact absurd h3 hne

theorem trimStart_ge_one (bs : List (List (K × V))) : 1 ≤ trimStart bs :=
  (trimStart_aux bs (bs.length - 1)).1

/-- Every occupied bucket index lies strictly below `trimStart`. -/
theorem occupied_lt_trimStart (bs : List (List (K × V))) (j : Nat)
    (hj : j < bs.length) (hne : ((bs[j]?).getD []).length ≠ 0) :
    j < trimStart bs := by
  rcases Nat.eq_zero_or_pos j with rfl | hpos
  · exact lt_of_lt_of_le Nat.one_pos (trimStart_ge_one bs)
  · exact (trimStart_aux bs (bs.length - 1)).2.2 j hpos (by omega) hne

theorem bucket_at_trimStart_empty (bs : List (List (K × V)))
    (hlt : trimStart bs < bs.length) : (bs[trimStart bs]?).getD [] = [] := by
  by_contra hne
  have : trimStart bs < trimStart bs :=
    occupied_lt_trimStart bs _ hlt (fun hz => hne (List.length_eq_zero.mp hz))
  omega

theorem trim_size (s : HMap K V) : (trim s).size = s.size := by
  simp only [trim]
  split <;> rfl

theorem trim_flatten (s : HMap K V) :
    (trim s).buckets.flatten = s.buckets.flatten := by
  simp only [trim]
  split
  case isTrue hlt =>
    show (s.buckets.eraseIdx (trimStart s.buckets)).flatten = _
    have hempty : s.buckets[trimStart s.buckets] = [] := by
      have he := bucket_at_trimStart_empty s.buckets hlt
      rwa [getD_getElem? _ _ hlt] at he
    rw [List.eraseIdx_eq_take_drop_succ, List.flatten_append,
      flatten_decomp s.buckets (trimStart s.buckets) hlt, hempty]
    simp
  case isFalse _ => rfl

theorem trim_prefix (s : HMap K V) (j : Nat) (hj : j < trimStart s.buckets) :
    (trim s).buckets[j]? = s.buckets[j]? := by
  simp only [trim]
  split
  case isTrue hlt =>
    show (s.buckets.eraseIdx (trimStart s.buckets))[j]? = _
    rw [List.eraseIdx_eq_take_drop_succ, List.getElem?_append]
    rw [if_pos (by rw [List.length_take]; omega)]
    rw [List.getElem?_take, if_pos hj]
  case isFalse _ => rfl

theorem trim_cap (s : HMap K V) :
    (trim s).buckets.length = s.buckets.length -
      (if trimStart s.buckets < s.buckets.length then 1 else 0) := by
  simp only [trim]
  split
  case isTrue hlt =>
    show (s.buckets.eraseIdx (trimStart s.buckets)).length = _
    rw [List.length_eraseIdx, if_pos hlt]
  case isFalse hge =>
    omega

/-! ### Capacity facts that need no well-formedness -/

theorem cap_growIfFull_pos (h : K → Nat) (s : HMap K V) :
    0 < (growIfFull h s).buckets.length := by
  unfold growIfFull
  by_cases htrig : s.buckets.length ≤ s.size
  · rw [if_pos htrig]
    exact cap_resize_pos h _ s
  · rw [if_neg htrig]
    omega

theorem cap_growIfFull_ge (h : K → Nat) (s : HMap K V) :
    s.buckets.length ≤ (growIfFull h s).buckets.length := by
  unfold growIfFull
  by_cases htrig : s.buckets.length ≤ s.size
  · rw [if_pos htrig]
    exact le_trans (le_growTarget_two _) (cap_resize_ge h _ s)
  · rw [if_neg htrig]

theorem cap_assign_pos (h : K → Nat) (k : K) (v : V) (s : HMap K V) :
    0 < (assign h k v s).buckets.length := by
  rw [assign_eq, cap_coreAssign]
  exact cap_growIfFull_pos h s

theorem cap_assign_ge (h : K → Nat) (k : K) (v : V) (s : HMap K V) :
    s.buckets.length ≤ (assign h k v s).buckets.length := by
  rw [assign_eq, cap_coreAssign]
  exact cap_growIfFull_ge h s

theorem cap_add_pos (h : K → Nat) (k : K) (v : V) (s : HMap K V) :
    0 < (add h k v s).1.buckets.length := by
  rw [add_eq]
  split
  · exact cap_growIfFull_pos h s
  · show 0 < (List.set _ _ _).length
    rw [List.length_set]
    exact cap_growIfFull_pos h s

theorem cap_add_ge (h : K → Nat) (k : K) (v : V) (s : HMap K V) :
    s.buckets.length ≤ (add h k v s).1.buckets.length := by
  rw [add_eq]
  split
  · exact cap_growIfFull_ge h s
  · show s.buckets.length ≤ (List.set _ _ _).length
    rw [List.length_set]
    exact cap_growIfFull_ge h s

theorem cap_remove_getD (h : K → Nat) (k : K) (s : HMap K V) :
    ((remove h k s).getD (s, false)).1.buckets.length = s.buckets.length := by
  by_cases hz : s.buckets.length = 0
  · unfold remove
    rw [if_pos hz]
    rfl
  · rw [remove_eq_pos h k s (by omega)]
    show (List.set _ _ _).length = _
    rw [List.length_set]

/-! ### The claims -/

/-- C1: the spec demands that a `Resize` whose re-insertion faults partway
rolls back to the exact pre-resize snapshot — buckets *and* count.  The code
restores only `m_Buckets` in its `catch` branch and leaves `m_Size` at the
partial re-insertion count: resizing the two-entry table below (whose second
key's hash faults) yields the original buckets with `m_Size = 1` instead of
the original `m_Size = 2`.  The count therefore is not identical before and
after the failed resize, contradicting both the spec and the code's own
`count == sum of bucket lengths` invariant maintained everywhere else. -/
theorem C1_resize_rollback_drops_count :
    resizeE (fun k => if k = 2 then none else some 0) 4
      (⟨[[(1, 10), (2, 20)]], 2⟩ : HMap Nat Nat) =
      ⟨[[(1, 10), (2, 20)]], 1⟩ ∧
    (⟨[[(1, 10), (2, 20)]], 2⟩ : HMap Nat Nat).size = 2 := by
  constructor
  · decide
  · rfl

/-- C2 (counterexample): `Clear()` on the freshly constructed one-bucket
table leaves *zero* buckets, not a single empty bucket, so the claimed
`capacity >= 1` invariant fails on a reachable state. -/
theorem C2_counterexample :
    (clear (hfresh 1 : HMap Nat Nat)).buckets.length = 0 ∧
    (clear (hfresh 1 : HMap Nat Nat)).size = 0 := by
  decide

/-- C2 (amended): `Clear()` resets the table to count 0 and an *empty*
bucket vector (capacity 0, not a minimal nonzero capacity); capacity at
least 1 is established by every `Assign`, `Add` and `Resize`, and `Trim`
and `Remove` preserve a nonzero capacity. -/
theorem C2_amended (h : K → Nat) (k : K) (v : V) (n : Nat) (s : HMap K V) :
    clear s = (⟨[], 0⟩ : HMap K V) ∧
    1 ≤ (assign h k v s).buckets.length ∧
    1 ≤ (add h k v s).1.buckets.length ∧
    1 ≤ (resize h n s).buckets.length ∧
    min 1 s.buckets.length ≤ (trim s).buckets.length ∧
    ((remove h k s).getD (s, false)).1.buckets.length = s.buckets.length := by
  refine ⟨rfl, cap_assign_pos h k v s, cap_add_pos h k v s, cap_resize_pos h n s,
    ?_, cap_remove_getD h k s⟩
  have h1 := trimStart_ge_one s.buckets
  rw [trim_cap]
  by_cases hlt : trimStart s.buckets < s.buckets.length
  · rw [if_pos hlt]
    omega
  · rw [if_neg hlt]
    omega

/-- C3: `ContainsKey` and `Remove` compute `hash % m_Buckets.size()` with no
emptiness guard, so on the zero-bucket state `Clear()` produces they reach
the division by zero (the `none` results below), while `Get` and the
throwing accessor `Return` guard with `!m_Buckets.empty()` and return their
ordinary miss results on the same state. -/
theorem C3_div_by_zero_after_clear (h : K → Nat) (k : K) (s : HMap K V) :
    (clear s).buckets.length = 0 ∧
    containsKey h k (clear s) = none ∧
    remove h k (clear s) = none ∧
    getV h k (clear s) = none ∧
    returnV h k (clear s) = Except.error () := by
  exact ⟨rfl, rfl, rfl, rfl, rfl⟩

/-- C4: the initializer-list constructor inserts through `Assign` (the
upsert), so a duplicated hash keeps the *last* occurrence, not the first:
seeding with `{(1,10),(1,20)}` yields `Get(1) = 20`.  This contradicts the
constructor's own documentation ("duplicate entries will be ignored") and
the spec's "first occurrence wins". -/
theorem C4_constructor_last_occurrence_wins :
    getV (fun x => x) 1
      (hashmapOfList (fun x => x) ([(1, 10), (1, 20)] : List (Nat × Nat)) 0) =
      some 20 ∧
    (hashmapOfList (fun x => x) ([(1, 10), (1, 20)] : List (Nat × Nat)) 0).size = 1 := by
  decide

/-- C5 (counterexample): `Trim` erases a single bucket
(`m_Buckets.erase(m_Buckets.begin() + trimStart)`), not the whole trailing
run: on `[[(0,1)],[],[]]` the post-trim capacity is 2, not the claimed
`max(highest occupied index + 1, 1) = 1`.  And because the capacity
changes, reachability is not preserved: the entry with hash 4 stored at
index `4 % 3 = 1` is no longer found once the capacity drops to 2
(`4 % 2 = 0` addresses an empty bucket). -/
theorem C5_counterexample :
    (trim (⟨[[(0, 1)], [], []], 1⟩ : HMap Nat Nat)).buckets.length = 2 ∧
    getV (fun x => x) 4 (⟨[[], [(4, 7)], []], 1⟩ : HMap Nat Nat) = some 7 ∧
    getV (fun x => x) 4 (trim (⟨[[], [(4, 7)], []], 1⟩ : HMap Nat Nat)) = none := by
  decide

/-- C5 (amended): `Trim()` erases at most *one* trailing empty bucket — the
bucket at `trimStart` (one past the highest occupied index among indices
`>= 1`, or 1) — when that index is below the capacity; it never removes or
modifies any bucket at or below the highest occupied index (every occupied
index lies strictly below `trimStart` and that prefix is untouched), leaves
the count and the stored entries unchanged, and shrinks the capacity by
exactly one in that case (reachability through modulo addressing is *not*
preserved in general, as the counterexample shows). -/
theorem C5_amended (s : HMap K V) :
    (trim s).size = s.size ∧
    (trim s).buckets.flatten = s.buckets.flatten ∧
    (∀ j, j < s.buckets.length → ((s.buckets[j]?).getD []).length ≠ 0 →
      j < trimStart s.buckets ∧ (trim s).buckets[j]? = s.buckets[j]?) ∧
    (trim s).buckets.length = s.buckets.length -
      (if trimStart s.buckets < s.buckets.length then 1 else 0) := by
  refine ⟨trim_size s, trim_flatten s, ?_, trim_cap s⟩
  intro j hj hne
  have hocc := occupied_lt_trimStart s.buckets j hj hne
  exact ⟨hocc, trim_prefix s j hocc⟩

theorem C5_amended_witness :
    1 < trimStart ([[], [(4, 7)], []] : List (List (Nat × Nat))) ∧
    (trim (⟨[[], [(4, 7)], []], 1⟩ : HMap Nat Nat)).buckets[1]? = some [(4, 7)] := by
  have H := C5_amended (⟨[[], [(4, 7)], []], 1⟩ : HMap Nat Nat)
  have h1 := H.2.2.1 1 (by decide) (by decide)
  exact ⟨h1.1, h1.2.trans (by decide)⟩

/-- C6 (counterexample): `Reserve` compares the requested size against
`m_Size` rather than the capacity, so on a capacity-8 table holding one
entry, `Reserve(2)` rebuilds at capacity 2 — capacity is not monotonic
under `Reserve`. -/
theorem C6_counterexample :
    (⟨[[(0, 1)], [], [], [], [], [], [], []], 1⟩ : HMap Nat Nat).buckets.length = 8 ∧
    (reserve (fun x => x) 2
      (⟨[[(0, 1)], [], [], [], [], [], [], []], 1⟩ : HMap Nat Nat)).buckets.length = 2 := by
  decide

/-- C6 (amended): capacity never decreases under `Add`, `Assign` or
`Remove`; but `Reserve(n)` resizes whenever `m_Size < n` and `Resize(n)`
rebuilds at `max(n, 1)` regardless of the current capacity, so those two
can shrink the bucket vector (counterexample above). -/
theorem C6_amended (h : K → Nat) (k : K) (v : V) (s : HMap K V) :
    s.buckets.length ≤ (add h k v s).1.buckets.length ∧
    s.buckets.length ≤ (assign h k v s).buckets.length ∧
    ((remove h k s).getD (s, false)).1.buckets.length = s.buckets.length :=
  ⟨cap_add_ge h k v s, cap_assign_ge h k v s, cap_remove_getD h k s⟩

theorem getV_congr_hash (h : K → Nat) (k1 k2 : K) (s : HMap K V)
    (heq : h k1 = h k2) : getV h k1 s = getV h k2 s := by
  unfold getV
  rw [heq]

theorem lookupBucket_some_mem_val (h : K → Nat) (hash : Nat) (v : V) :
    ∀ b : List (K × V), lookupBucket h hash b = some v →
      ∃ e ∈ b, h e.1 = hash ∧ e.2 = v
  | [] => by simp [lookupBucket]
  | kv :: rest => by
    intro hlk
    by_cases hh : h kv.1 = hash
    · rw [lookupBucket, if_pos hh] at hlk
      exact ⟨kv, List.mem_cons_self _ _, hh, Option.some_inj.mp hlk⟩
    · rw [lookupBucket, if_neg hh] at hlk
      obtain ⟨e, he, h1, h2⟩ := lookupBucket_some_mem_val h hash v rest hlk
      exact ⟨e, List.mem_cons_of_mem _ he, h1, h2⟩

theorem getV_some_mem (h : K → Nat) (k : K) (s : HMap K V) (v : V)
    (hget : getV h k s = some v) :
    ∃ e ∈ s.buckets.flatten, h e.1 = h k ∧ e.2 = v := by
  unfold getV at hget
  by_cases hz : s.buckets.length = 0
  · rw [if_pos hz] at hget
    exact absurd hget (by simp)
  · rw [if_neg hz] at hget
    obtain ⟨e, he, h1, h2⟩ := lookupBucket_some_mem_val h (h k) v _ hget
    have hlt : h k % s.buckets.length < s.buckets.length := Nat.mod_lt _ (by omega)
    refine ⟨e, List.mem_flatten.mpr ⟨_, ?_, he⟩, h1, h2⟩
    rw [getD_getElem? _ _ hlt]
    exact List.getElem_mem hlt

/-- C7: after a successful `Add(K, v1)`, a second `Add(K, v2)` finds the
hash match in the addressed bucket, inserts nothing (the stored entries are
unchanged up to the relocation a triggered resize may perform), leaves the
count unchanged, returns `false`, and `Get(K)` still yields `v1`. -/
theorem C7_add_never_overwrites (h : K → Nat) (k : K) (v1 v2 : V) (s s1 : HMap K V)
    (hWF : WF h s) (h1 : add h k v1 s = (s1, true)) :
    (add h k v2 s1).2 = false ∧
    (add h k v2 s1).1.size = s1.size ∧
    (add h k v2 s1).1.buckets.flatten.Perm s1.buckets.flatten ∧
    getV h k (add h k v2 s1).1 = some v1 := by
  by_cases hpres : ∃ e ∈ s.buckets.flatten, h e.1 = h k
  · rw [add_present h k v1 s hWF hpres] at h1
    exact absurd (congrArg Prod.snd h1) (by simp)
  · have A := add_absent h k v1 s hWF hpres
    have hfst : (add h k v1 s).1 = s1 := by rw [h1]
    have hs1 : s1 = assign h k v1 s := by
      rw [← hfst]
      exact A.2
    have hWF1 : WF h s1 := by
      rw [hs1]
      exact WF_assign h k v1 s hWF
    have hget1 : getV h k s1 = some v1 := by
      rw [hs1]
      exact getV_assign_self h k v1 s hWF
    obtain ⟨e, hemem, hehash, heval⟩ := getV_some_mem h k s1 v1 hget1
    have AP := add_present h k v2 s1 hWF1 ⟨e, hemem, hehash⟩
    have P := growIfFull_spec h s1 hWF1
    rw [AP]
    refine ⟨rfl, P.2.2.2.1, P.2.2.1, ?_⟩
    show getV h k (growIfFull h s1) = some v1
    have hg : getV h e.1 (growIfFull h s1) = some e.2 :=
      getV_of_mem h _ P.1 e.1 e.2 (P.2.2.1.mem_iff.mpr hemem)
    rw [← getV_congr_hash h e.1 k _ hehash, hg, heval]

theorem C7_witness :
    (add (fun x => x) 1 20 (⟨[[(1, 10)]], 1⟩ : HMap Nat Nat)).2 = false ∧
    (add (fun x => x) 1 20 (⟨[[(1, 10)]], 1⟩ : HMap Nat Nat)).1.size =
      (⟨[[(1, 10)]], 1⟩ : HMap Nat Nat).size ∧
    (add (fun x => x) 1 20
      (⟨[[(1, 10)]], 1⟩ : HMap Nat Nat)).1.buckets.flatten.Perm
      (⟨[[(1, 10)]], 1⟩ : HMap Nat Nat).buckets.flatten ∧
    getV (fun x => x) 1
      (add (fun x => x) 1 20 (⟨[[(1, 10)]], 1⟩ : HMap Nat Nat)).1 = some 10 :=
  C7_add_never_overwrites (fun x => x) 1 10 20 ⟨[[]], 0⟩ ⟨[[(1, 10)]], 1⟩
    (by decide) (by decide)

/-- C8: when the load-factor condition `count >= capacity` triggers the
doubling resize on a well-formed table (and no internal fault occurs — the
hash is total here), every entry present before the resize is retrievable
by its key afterwards and the size is unchanged. -/
theorem C8_resize_preserves_reachability (h : K → Nat) (s : HMap K V)
    (hWF : WF h s) (_htrig : s.buckets.length ≤ s.size) :
    (∀ kv ∈ s.buckets.flatten,
      getV h kv.1 (resize h (2 * s.buckets.length) s) = some kv.2) ∧
    (resize h (2 * s.buckets.length) s).size = s.size := by
  have R := resize_spec h (2 * s.buckets.length) s hWF
  refine ⟨?_, R.2.2.1⟩
  intro kv hkv
  exact getV_of_mem h _ R.1 kv.1 kv.2 (R.2.1.mem_iff.mpr hkv)

theorem C8_witness :
    (∀ kv ∈ (⟨[[(0, 5)]], 1⟩ : HMap Nat Nat).buckets.flatten,
      getV (fun x => x) kv.1
        (resize (fun x => x) (2 * (⟨[[(0, 5)]], 1⟩ : HMap Nat Nat).buckets.length)
          (⟨[[(0, 5)]], 1⟩ : HMap Nat Nat)) = some kv.2) ∧
    (resize (fun x => x) (2 * (⟨[[(0, 5)]], 1⟩ : HMap Nat Nat).buckets.length)
      (⟨[[(0, 5)]], 1⟩ : HMap Nat Nat)).size = (⟨[[(0, 5)]], 1⟩ : HMap Nat Nat).size :=
  C8_resize_preserves_reachability (fun x => x) ⟨[[(0, 5)]], 1⟩ (by decide) (by decide)

/-- C9: on a table with at least one bucket (well-formed), `Remove(K)`
returns `true` exactly when an entry with a matching hash is found
(`ContainsKey`), in which case it erases exactly one element from the
addressed bucket (other buckets untouched, capacity unchanged — no resize)
and decrements the count by exactly one, after which `ContainsKey(K)` is
`false` and a further `Remove(K)` returns `false`; when the key is absent
the table is left unchanged. -/
theorem C9_remove_spec (h : K → Nat) (k : K) (s : HMap K V) (p : HMap K V × Bool)
    (hWF : WF h s) (hcap : 0 < s.buckets.length)
    (hp : remove h k s = some p) :
    (p.2 = true ↔ containsKey h k s = some true) ∧
    (p.2 = true →
      p.1.size + 1 = s.size ∧
      p.1.buckets.length = s.buckets.length ∧
      ((p.1.buckets[h k % s.buckets.length]?).getD []).length + 1 =
        ((s.buckets[h k % s.buckets.length]?).getD []).length ∧
      (∀ j, j ≠ h k % s.buckets.length → p.1.buckets[j]? = s.buckets[j]?) ∧
      containsKey h k p.1 = some false ∧
      remove h k p.1 = some (p.1, false)) ∧
    (p.2 = false → p.1 = s) := by
  have hlt : h k % s.buckets.length < s.buckets.length := Nat.mod_lt _ hcap
  have hbmem : (s.buckets[h k % s.buckets.length]?).getD [] ∈ s.buckets := by
    rw [getD_getElem? _ _ hlt]
    exact List.getElem_mem hlt
  have hpwb := hWF.2.2 _ hbmem
  have hnomatch := removeBucket_no_match h (h k) _ hpwb
  rw [remove_eq_pos h k s hcap] at hp
  have hpeq : p = _ := (Option.some_inj.mp hp).symm
  subst hpeq
  refine ⟨?_, ?_, ?_⟩
  · show (removeBucket h (h k) ((s.buckets[h k % s.buckets.length]?).getD [])).2 =
      true ↔ _
    rw [containsKey_eq_pos h k s hcap, removeBucket_snd]
    simp
  · intro hfound
    have hfound' : (removeBucket h (h k)
        ((s.buckets[h k % s.buckets.length]?).getD [])).2 = true := hfound
    have hblen := length_removeBucket_found h (h k) _ hfound'
    dsimp only
    rw [if_pos hfound']
    refine ⟨?_, ?_, ?_, ?_, ?_, ?_⟩
    · -- count decremented by exactly one
      have hflen : ((s.buckets[h k % s.buckets.length]?).getD []).length ≤
          s.buckets.flatten.length := by
        rw [getD_getElem? _ _ hlt, flatten_decomp s.buckets _ hlt]
        simp only [List.length_append]
        omega
      have hsz := hWF.1
      omega
    · rw [List.length_set]
    · rw [List.getElem?_set_self hlt]
      simp only [Option.getD_some]
      exact hblen
    · intro j hj
      rw [List.getElem?_set_ne (Ne.symm hj)]
    · -- ContainsKey now false
      rw [containsKey_eq_pos h k _ (by rw [List.length_set]; omega)]
      show some ((((s.buckets.set (h k % s.buckets.length)
          (removeBucket h (h k)
            ((s.buckets[h k % s.buckets.length]?).getD [])).1)[h k %
          (s.buckets.set (h k % s.buckets.length)
            (removeBucket h (h k)
              ((s.buckets[h k % s.buckets.length]?).getD [])).1).length]?).getD []).any
        (fun kv => h kv.1 == h k)) = some false
      rw [List.length_set, List.getElem?_set_self hlt]
      simp only [Option.getD_some]
      rw [hnomatch]
    · -- a further Remove returns false
      rw [remove_eq_pos h k _ (by rw [List.length_set]; omega)]
      dsimp only
      rw [List.length_set, List.getElem?_set_self hlt]
      simp only [Option.getD_some]
      have hrr2 : (removeBucket h (h k) (removeBucket h (h k)
          ((s.buckets[h k % s.buckets.length]?).getD [])).1).2 = false := by
        rw [removeBucket_snd]
        exact hnomatch
      simp only [hrr2, removeBucket_fst_of_not_found h (h k) _ hrr2, List.set_set]
      simp
  · intro hfalse
    have hfalse' : (removeBucket h (h k)
        ((s.buckets[h k % s.buckets.length]?).getD [])).2 = false := hfalse
    dsimp only
    rw [if_neg (by rw [hfalse']; simp),
      removeBucket_fst_of_not_found h (h k) _ hfalse',
      set_getElem?_self s.buckets _ _
        (by rw [getD_getElem? _ _ hlt]; exact List.getElem?_eq_getElem hlt),
      Nat.sub_zero]

theorem C9_witness :
    (((⟨[[]], 0⟩ : HMap Nat Nat), true).2 = true ↔
      containsKey (fun x => x) 0 (⟨[[(0, 5)]], 1⟩ : HMap Nat Nat) = some true) ∧
    ((⟨[[]], 0⟩ : HMap Nat Nat) : HMap Nat Nat).size + 1 =
      (⟨[[(0, 5)]], 1⟩ : HMap Nat Nat).size ∧
    containsKey (fun x => x) 0 (⟨[[]], 0⟩ : HMap Nat Nat) = some false ∧
    remove (fun x => x) 0 (⟨[[]], 0⟩ : HMap Nat Nat) = some (⟨[[]], 0⟩, false) := by
  have H := C9_remove_spec (fun x => x) 0 (⟨[[(0, 5)]], 1⟩ : HMap Nat Nat)
    ((⟨[[]], 0⟩ : HMap Nat Nat), true) (by decide) (by decide) (by decide)
  have H2 := H.2.1 rfl
  exact ⟨H.1, H2.1, H2.2.2.2.2.1, H2.2.2.2.2.2⟩

/-- C10: `Assign(K, v)` upserts — with a matching hash in the target bucket
it replaces the value in place (count unchanged and the stored keys
unchanged as a multiset), otherwise it appends a new entry and increments
the count; afterwards `Get(K) = v`, and an immediately repeated
`Assign(K, v)` leaves `size()` unchanged with `Get(K) = v` still. -/
theorem C10_assign_upsert_idempotent (h : K → Nat) (k : K) (v : V) (s : HMap K V)
    (hWF : WF h s) :
    ((∃ e ∈ s.buckets.flatten, h e.1 = h k) →
      (assign h k v s).size = s.size ∧
      ((assign h k v s).buckets.flatten.map Prod.fst).Perm
        (s.buckets.flatten.map Prod.fst)) ∧
    ((¬ ∃ e ∈ s.buckets.flatten, h e.1 = h k) →
      (assign h k v s).size = s.size + 1) ∧
    getV h k (assign h k v s) = some v ∧
    (assign h k v (assign h k v s)).size = (assign h k v s).size ∧
    getV h k (assign h k v (assign h k v s)) = some v := by
  refine ⟨fun hpres => ⟨assign_size_present h k v s hWF hpres,
      assign_keys_present h k v s hWF hpres⟩,
    fun habs => assign_size_absent h k v s hWF habs,
    getV_assign_self h k v s hWF, ?_, ?_⟩
  · exact assign_size_present h k v _ (WF_assign h k v s hWF)
      (getV_some_present h k _ v (getV_assign_self h k v s hWF))
  · exact getV_assign_self h k v _ (WF_assign h k v s hWF)

theorem C10_witness :
    (assign (fun x => x) 3 7 (⟨[[]], 0⟩ : HMap Nat Nat)).size =
      (⟨[[]], 0⟩ : HMap Nat Nat).size + 1 ∧
    getV (fun x => x) 3 (assign (fun x => x) 3 7 (⟨[[]], 0⟩ : HMap Nat Nat)) = some 7 ∧
    (assign (fun x => x) 3 7 (assign (fun x => x) 3 7
      (⟨[[]], 0⟩ : HMap Nat Nat))).size =
      (assign (fun x => x) 3 7 (⟨[[]], 0⟩ : HMap Nat Nat)).size ∧
    getV (fun x => x) 3 (assign (fun x => x) 3 7 (assign (fun x => x) 3 7
      (⟨[[]], 0⟩ : HMap Nat Nat))) = some 7 := by
  have H := C10_assign_upsert_idempotent (fun x => x) 3 7
    (⟨[[]], 0⟩ : HMap Nat Nat) (by decide)
  exact ⟨H.2.1 (by decide), H.2.2.1, H.2.2.2.1, H.2.2.2.2⟩

end CppHashmap
